import Mathlib

/-!
Verification of the MiniPlaces scene-recognition training code
(`SceneRecognition.py`): two classifiers (`SimpleFCNet`, `SimpleConvNet`)
and the generic `train_model` / `test_model` loops.

The embedding uses exact rationals for tensor entries.  The two
transcendental operations of the source — the exponential inside
`softmax` and the reciprocal square root inside batch normalization —
are passed in as explicit function arguments (`ex`, `rsqrt`), so every
definition stays computable while theorems can assume exactly the
properties of the real functions they stand for (positivity, strict
monotonicity).
-/

set_option autoImplicit false
set_option linter.unusedVariables false

namespace SceneRec

/-- `self.training`: the classifier mode flag set by `model.train()` /
`model.eval()`. -/
inductive Mode : Type
  | train : Mode
  | infer : Mode
deriving DecidableEq

/-- `nn.functional.softmax(out, dim=1)` applied to one example's score
vector, with the exponential abstracted as `ex`. -/
def softmax (ex : ℚ → ℚ) (v : List ℚ) : List ℚ :=
  let s := (v.map ex).sum
  v.map (fun x => ex x / s)

/-- `nn.ReLU` on a flat vector. -/
def reluV (v : List ℚ) : List ℚ :=
  v.map (fun x => max x 0)

/-- `nn.Linear(inF, outF)`: weight row `j`, column `i` is `weight j i`.
Applying it to a vector of the wrong length is a runtime shape error in
the source, modelled as `none`. -/
structure LinearLayer : Type where
  inF : ℕ
  outF : ℕ
  weight : ℕ → ℕ → ℚ
  bias : ℕ → ℚ

def LinearLayer.apply (L : LinearLayer) (x : List ℚ) : Option (List ℚ) :=
  if x.length = L.inF then
    some ((List.range L.outF).map
      (fun j => L.bias j + ((List.range L.inF).map (fun i => L.weight j i * x.getD i 0)).sum))
  else
    none

/-- `output.max(1, keepdim=True)[1]` for one row: index of the first
maximal entry of the score vector. -/
def argmaxIdx : List ℚ → ℕ
  | [] => 0
  | [_] => 0
  | x :: y :: rest =>
      let j := argmaxIdx (y :: rest)
      if x < (y :: rest).getD j 0 then j + 1 else 0

/-! ### Basic lemmas about the primitives -/

theorem softmax_length (ex : ℚ → ℚ) (v : List ℚ) :
    (softmax ex v).length = v.length := by
  simp [softmax]

theorem reluV_length (v : List ℚ) : (reluV v).length = v.length := by
  simp [reluV]

theorem linear_apply_of_length {L : LinearLayer} {x : List ℚ}
    (h : x.length = L.inF) :
    ∃ y, L.apply x = some y ∧ y.length = L.outF := by
  refine ⟨(List.range L.outF).map
      (fun j => L.bias j + ((List.range L.inF).map (fun i => L.weight j i * x.getD i 0)).sum),
    ?_, ?_⟩
  · simp [LinearLayer.apply, h]
  · simp

theorem sum_map_div (l : List ℚ) (s : ℚ) :
    (l.map (fun x => x / s)).sum = l.sum / s := by
  induction l with
  | nil => simp
  | cons a t ih => simp [ih, add_div]

theorem sum_pos_of_forall_pos {l : List ℚ} (hne : l ≠ [])
    (h : ∀ x ∈ l, 0 < x) : 0 < l.sum := by
  induction l with
  | nil => exact absurd rfl hne
  | cons a t ih =>
      rcases t with _ | ⟨b, t⟩
      · simpa using h a (by simp)
      · have ha : 0 < a := h a (by simp)
        have ht : 0 < (b :: t).sum := by
          apply ih
          · simp
          · intro x hx
            exact h x (List.mem_cons_of_mem _ hx)
        simpa [List.sum_cons] using add_pos ha ht

theorem softmax_sum_eq_one {ex : ℚ → ℚ} {v : List ℚ} (hne : v ≠ [])
    (hex : ∀ x ∈ v, 0 < ex x) : (softmax ex v).sum = 1 := by
  have hpos : 0 < (v.map ex).sum := by
    apply sum_pos_of_forall_pos
    · simpa using hne
    · intro x hx
      rcases List.mem_map.mp hx with ⟨a, ha, rfl⟩
      exact hex a ha
  have : (v.map (fun x => ex x / (v.map ex).sum)).sum
      = ((v.map ex).map (fun x => x / (v.map ex).sum)).sum := by
    rw [List.map_map]
    rfl
  simp only [softmax]
  rw [this, sum_map_div, div_self (ne_of_gt hpos)]

theorem argmaxIdx_cons_cons (x y : ℚ) (rest : List ℚ) :
    argmaxIdx (x :: y :: rest)
      = if x < (y :: rest).getD (argmaxIdx (y :: rest)) 0
        then argmaxIdx (y :: rest) + 1 else 0 := rfl

theorem argmaxIdx_lt_length (v : List ℚ) (hv : v ≠ []) : argmaxIdx v < v.length := by
  induction v with
  | nil => exact absurd rfl hv
  | cons x t ih =>
      cases t with
      | nil => simp [argmaxIdx]
      | cons y rest =>
          have h := ih (by simp)
          rw [argmaxIdx_cons_cons]
          by_cases hc : x < (y :: rest).getD (argmaxIdx (y :: rest)) 0
          · rw [if_pos hc]
            simpa using Nat.succ_lt_succ h
          · rw [if_neg hc]
            simp

theorem getD_map_of_lt (f : ℚ → ℚ) (l : List ℚ) (j : ℕ) (hj : j < l.length)
    (d d2 : ℚ) : (l.map f).getD j d2 = f (l.getD j d) := by
  induction l generalizing j with
  | nil => simp at hj
  | cons a t ih =>
      cases j with
      | zero => rfl
      | succ k =>
          have hk : k < t.length := by simpa using hj
          simpa using ih k hk

theorem getD_mem_of_lt (l : List ℚ) (j : ℕ) (hj : j < l.length) (d : ℚ) :
    l.getD j d ∈ l := by
  induction l generalizing j with
  | nil => simp at hj
  | cons a t ih =>
      cases j with
      | zero => simp
      | succ k =>
          have hk : k < t.length := by simpa using hj
          exact List.mem_cons_of_mem _ (ih k hk)

theorem argmaxIdx_map (f : ℚ → ℚ) (v : List ℚ)
    (hiso : ∀ a ∈ v, ∀ b ∈ v, (a < b ↔ f a < f b)) :
    argmaxIdx (v.map f) = argmaxIdx v := by
  induction v with
  | nil => rfl
  | cons x t ih =>
      cases t with
      | nil => rfl
      | cons y rest =>
          have htail : argmaxIdx ((y :: rest).map f) = argmaxIdx (y :: rest) := by
            apply ih
            intro a ha b hb
            exact hiso a (List.mem_cons_of_mem _ ha) b (List.mem_cons_of_mem _ hb)
          have hj : argmaxIdx (y :: rest) < (y :: rest).length :=
            argmaxIdx_lt_length _ (by simp)
          have hmem : (y :: rest).getD (argmaxIdx (y :: rest)) 0 ∈ (y :: rest) :=
            getD_mem_of_lt _ _ hj 0
          have hcond : (f x < ((y :: rest).map f).getD (argmaxIdx (y :: rest)) 0)
              ↔ (x < (y :: rest).getD (argmaxIdx (y :: rest)) 0) := by
            rw [getD_map_of_lt f (y :: rest) _ hj 0 0]
            exact (hiso x (by simp) _ (List.mem_cons_of_mem _ hmem)).symm
          rw [List.map_cons]
          rw [show (y :: rest).map f = f y :: rest.map f from rfl] at htail hcond ⊢
          rw [argmaxIdx_cons_cons, argmaxIdx_cons_cons, htail]
          by_cases hc : x < (y :: rest).getD (argmaxIdx (y :: rest)) 0
          · rw [if_pos hc, if_pos (hcond.mpr hc)]
          · rw [if_neg hc, if_neg (fun hx => hc (hcond.mp hx))]

theorem argmaxIdx_softmax (ex : ℚ → ℚ) (v : List ℚ) (hne : v ≠ [])
    (hpos : ∀ x ∈ v, 0 < ex x)
    (hiso : ∀ a ∈ v, ∀ b ∈ v, (a < b ↔ ex a < ex b)) :
    argmaxIdx (softmax ex v) = argmaxIdx v := by
  have hs : 0 < (v.map ex).sum := by
    apply sum_pos_of_forall_pos
    · simpa using hne
    · intro x hx
      rcases List.mem_map.mp hx with ⟨a, ha, rfl⟩
      exact hpos a ha
  apply argmaxIdx_map
  intro a ha b hb
  exact (hiso a ha b hb).trans (div_lt_div_iff_of_pos_right hs).symm

/-! ### Batched application

PyTorch applies each layer to the whole batch at once; a shape error in
any example aborts the whole forward call.  `mapOpt` models this:
it returns `none` as soon as one example fails. -/

def mapOpt {α β : Type} (f : α → Option β) : List α → Option (List β)
  | [] => some []
  | a :: t =>
      match f a with
      | none => none
      | some b =>
          match mapOpt f t with
          | none => none
          | some r => some (b :: r)

theorem mapOpt_of_forall {α β : Type} (f : α → Option β) (P : β → Prop)
    (l : List α) (h : ∀ a ∈ l, ∃ b, f a = some b ∧ P b) :
    ∃ l2, mapOpt f l = some l2 ∧ l2.length = l.length ∧ ∀ b ∈ l2, P b := by
  induction l with
  | nil => exact ⟨[], rfl, rfl, by simp⟩
  | cons a t ih =>
      rcases h a (by simp) with ⟨b, hb, hPb⟩
      rcases ih (fun x hx => h x (List.mem_cons_of_mem _ hx)) with ⟨l2, hl2, hlen, hall⟩
      refine ⟨b :: l2, ?_, by simp [hlen], ?_⟩
      · simp [mapOpt, hb, hl2]
      · intro c hc
        rcases List.mem_cons.mp hc with rfl | hc2
        · exact hPb
        · exact hall c hc2

/-! ### `SimpleFCNet` -/

/-- The layer stack of `SimpleFCNet`: the three `nn.Linear` modules
(Flatten and the two `nn.ReLU` own no parameters). -/
structure FCNet : Type where
  lin1 : LinearLayer
  lin2 : LinearLayer
  lin3 : LinearLayer

/-- `SimpleFCNet.reset_params`: for every `nn.Linear` module, overwrite
the weight with `nn.init.xavier_uniform_` and the bias with constant 0.
The Xavier draw is abstracted as `xavier fanIn fanOut j i` — the random
value placed at row `j`, column `i` of a weight of that shape. -/
def resetParams (xavier : ℕ → ℕ → ℕ → ℕ → ℚ) (net : FCNet) : FCNet where
  lin1 := { net.lin1 with weight := xavier net.lin1.inF net.lin1.outF, bias := fun _ => 0 }
  lin2 := { net.lin2 with weight := xavier net.lin2.inF net.lin2.outF, bias := fun _ => 0 }
  lin3 := { net.lin3 with weight := xavier net.lin3.inF net.lin3.outF, bias := fun _ => 0 }

/-- `SimpleFCNet.__init__`: builds Flatten, `Linear(784, 128)`, ReLU,
`Linear(128, 64)`, ReLU, `Linear(64, num_classes)` and then calls
`reset_params()` once.  The `input_shape` argument is accepted but never
read — the first linear width 784 is hard-coded.  `defW` / `defB` stand
for the default parameter values `nn.Linear` holds before
`reset_params` overwrites them. -/
def simpleFCNetInit (input_shape : ℕ × ℕ) (num_classes : ℕ)
    (defW : ℕ → ℕ → ℕ → ℕ → ℚ) (defB : ℕ → ℕ → ℕ → ℚ)
    (xavier : ℕ → ℕ → ℕ → ℕ → ℚ) : FCNet :=
  resetParams xavier
    { lin1 := ⟨784, 128, defW 784 128, defB 784 128⟩
      lin2 := ⟨128, 64, defW 128 64, defB 128 64⟩
      lin3 := ⟨64, num_classes, defW 64 num_classes, defB 64 num_classes⟩ }

/-- `self.layers(x)` of `SimpleFCNet` on one example: Flatten (`flatten`),
then Linear/ReLU/Linear/ReLU/Linear. -/
def fcLayers (net : FCNet) (x : List (List ℚ)) : Option (List ℚ) :=
  match net.lin1.apply x.flatten with
  | none => none
  | some h1 =>
      match net.lin2.apply (reluV h1) with
      | none => none
      | some h2 => net.lin3.apply (reluV h2)

/-- `SimpleFCNet.forward` on a batch: run the layer stack, then return
raw logits in training mode or row-wise softmax in inference mode. -/
def fcNetForward (mode : Mode) (ex : ℚ → ℚ) (net : FCNet)
    (xs : List (List (List ℚ))) : Option (List (List ℚ)) :=
  match mapOpt (fcLayers net) xs with
  | none => none
  | some outs =>
      match mode with
      | Mode.train => some outs
      | Mode.infer => some (outs.map (softmax ex))

theorem fcLayers_shape (net : FCNet) (x : List (List ℚ))
    (hx : x.flatten.length = net.lin1.inF)
    (h12 : net.lin2.inF = net.lin1.outF)
    (h23 : net.lin3.inF = net.lin2.outF) :
    ∃ y, fcLayers net x = some y ∧ y.length = net.lin3.outF := by
  rcases linear_apply_of_length hx with ⟨h1, hh1, hl1⟩
  rcases linear_apply_of_length (L := net.lin2) (x := reluV h1)
    (by rw [reluV_length, hl1, h12]) with ⟨h2, hh2, hl2⟩
  rcases linear_apply_of_length (L := net.lin3) (x := reluV h2)
    (by rw [reluV_length, hl2, h23]) with ⟨h3, hh3, hl3⟩
  exact ⟨h3, by simp [fcLayers, hh1, hh2, hh3], hl3⟩

theorem join_length_of_grid (g : List (List ℚ)) (w : ℕ)
    (hr : ∀ r ∈ g, r.length = w) : g.flatten.length = g.length * w := by
  induction g with
  | nil => simp
  | cons r t ih =>
      have hrw : r.length = w := hr r (by simp)
      have ht : t.flatten.length = t.length * w :=
        ih (fun s hs => hr s (List.mem_cons_of_mem _ hs))
      simp [hrw, ht, Nat.succ_mul, Nat.add_comm]

/-! ### `SimpleConvNet` -/

/-- A feature map (one example): `chans` channels of `height × width`
rationals, entry access `val c i j`. -/
structure FMap : Type where
  chans : ℕ
  height : ℕ
  width : ℕ
  val : ℕ → ℕ → ℕ → ℚ

/-- The shape of a feature map. -/
def dims3 (c h w : ℕ) (m : FMap) : Prop :=
  m.chans = c ∧ m.height = h ∧ m.width = w

instance (c h w : ℕ) (m : FMap) : Decidable (dims3 c h w m) := by
  unfold dims3
  infer_instance

/-- `nn.Conv2d(inC, outC, kernel_size=3, stride=1)` on one example:
`w o c di dj` is the kernel entry, `b o` the bias of output channel `o`.
The output spatial size is `(H-2) × (W-2)`; an input with the wrong
channel count or smaller than the kernel is a runtime error (`none`). -/
def conv2d (inC outC : ℕ) (w : ℕ → ℕ → ℕ → ℕ → ℚ) (b : ℕ → ℚ)
    (m : FMap) : Option FMap :=
  if m.chans = inC ∧ 3 ≤ m.height ∧ 3 ≤ m.width then
    some { chans := outC, height := m.height - 2, width := m.width - 2,
           val := fun o i j => b o +
             ((List.range inC).map (fun c =>
               ((List.range 3).map (fun di =>
                 ((List.range 3).map (fun dj =>
                   w o c di dj * m.val c (i + di) (j + dj))).sum)).sum)).sum }
  else none

/-- `nn.MaxPool2d(kernel_size=2, stride=2)`: halves each spatial
dimension (floor); an input smaller than the kernel is a runtime
error (`none`). -/
def maxPool2 (m : FMap) : Option FMap :=
  if 2 ≤ m.height ∧ 2 ≤ m.width then
    some { chans := m.chans, height := m.height / 2, width := m.width / 2,
           val := fun c i j =>
             max (max (m.val c (2 * i) (2 * j)) (m.val c (2 * i) (2 * j + 1)))
                 (max (m.val c (2 * i + 1) (2 * j)) (m.val c (2 * i + 1) (2 * j + 1))) }
  else none

/-- `nn.ReLU` on a feature map. -/
def reluF (m : FMap) : FMap :=
  { m with val := fun c i j => max (m.val c i j) 0 }

/-- `nn.Flatten()` on one example: channel-major, then row-major. -/
def flattenFMap (m : FMap) : List ℚ :=
  (List.range m.chans).flatMap (fun c =>
    (List.range m.height).flatMap (fun i =>
      (List.range m.width).map (fun j => m.val c i j)))

/-- Learnable parameters and running statistics of `nn.BatchNorm2d`. -/
structure BNParams : Type where
  gamma : ℕ → ℚ
  beta : ℕ → ℚ
  runMean : ℕ → ℚ
  runVar : ℕ → ℚ

/-- `nn.BatchNorm2d` default `eps`. -/
def bnEps : ℚ := 1 / 100000

/-- `nn.BatchNorm2d` on a batch of feature maps, with the reciprocal
square root `1 / sqrt v` abstracted as `rsqrt v`.  In training mode the
per-channel mean and biased variance are taken over the batch and both
spatial dimensions; in inference mode the stored running statistics are
used. -/
def batchNorm (mode : Mode) (rsqrt : ℚ → ℚ) (bp : BNParams)
    (ms : List FMap) : List FMap :=
  match mode with
  | Mode.infer =>
      ms.map (fun m =>
        { m with val := fun c i j =>
            (m.val c i j - bp.runMean c) * rsqrt (bp.runVar c + bnEps)
              * bp.gamma c + bp.beta c })
  | Mode.train =>
      let count : ℚ := ((ms.map (fun m => m.height * m.width)).sum : ℕ)
      let mean : ℕ → ℚ := fun c =>
        (ms.map (fun m =>
          ((List.range m.height).map (fun i =>
            ((List.range m.width).map (fun j => m.val c i j)).sum)).sum)).sum / count
      let var : ℕ → ℚ := fun c =>
        (ms.map (fun m =>
          ((List.range m.height).map (fun i =>
            ((List.range m.width).map (fun j => (m.val c i j - mean c) ^ 2)).sum)).sum)).sum / count
      ms.map (fun m =>
        { m with val := fun c i j =>
            (m.val c i j - mean c) * rsqrt (var c + bnEps)
              * bp.gamma c + bp.beta c })

/-- `nn.Dropout(p=0.2)`: in training mode entry `i` is zeroed when the
Bernoulli draw `mask i` fires and survivors are scaled by
`1/(1-p) = 5/4`; in inference mode it is the identity. -/
def dropout (mode : Mode) : (ℕ → Bool) → List ℚ → List ℚ :=
  match mode with
  | Mode.infer => fun _ v => v
  | Mode.train => fun mask v => v.mapIdx (fun i a => if mask i then 0 else a * (5 / 4))

/-- Parameters of `SimpleConvNet`'s layer stack. -/
structure ConvNet : Type where
  numClasses : ℕ
  w1 : ℕ → ℕ → ℕ → ℕ → ℚ
  b1 : ℕ → ℚ
  bn1 : BNParams
  w2 : ℕ → ℕ → ℕ → ℕ → ℚ
  b2 : ℕ → ℚ
  bn2 : BNParams
  fc1w : ℕ → ℕ → ℚ
  fc1b : ℕ → ℚ
  fc2w : ℕ → ℕ → ℚ
  fc2b : ℕ → ℚ
  fc3w : ℕ → ℕ → ℚ
  fc3b : ℕ → ℚ

/-- `nn.Linear(1152, 256)` — the in-features are hard-coded to 1152 in
the source. -/
def ConvNet.fc1 (net : ConvNet) : LinearLayer := ⟨1152, 256, net.fc1w, net.fc1b⟩

/-- `nn.Linear(256, 128)`. -/
def ConvNet.fc2 (net : ConvNet) : LinearLayer := ⟨256, 128, net.fc2w, net.fc2b⟩

/-- `nn.Linear(128, num_classes)`. -/
def ConvNet.fc3 (net : ConvNet) : LinearLayer := ⟨128, net.numClasses, net.fc3w, net.fc3b⟩

/-- `self.layers(x)` of `SimpleConvNet` on a batch, in the order the
constructor appends the layers: Conv2d(3,16,3,1), BatchNorm2d(16),
ReLU, MaxPool2d(2,2), Conv2d(16,32,3,1), BatchNorm2d(32), ReLU,
MaxPool2d(2,2), Flatten, Linear(1152,256), ReLU, Linear(256,128),
ReLU, Linear(128,num_classes), Dropout(p=0.2). -/
def convNetRaw (mode : Mode) (rsqrt : ℚ → ℚ) (mask : ℕ → Bool)
    (net : ConvNet) (xs : List FMap) : Option (List (List ℚ)) :=
  match mapOpt (conv2d 3 16 net.w1 net.b1) xs with
  | none => none
  | some a1 =>
      match mapOpt maxPool2 ((batchNorm mode rsqrt net.bn1 a1).map reluF) with
      | none => none
      | some a4 =>
          match mapOpt (conv2d 16 32 net.w2 net.b2) a4 with
          | none => none
          | some a5 =>
              match mapOpt maxPool2 ((batchNorm mode rsqrt net.bn2 a5).map reluF) with
              | none => none
              | some a8 =>
                  match mapOpt net.fc1.apply (a8.map flattenFMap) with
                  | none => none
                  | some a10 =>
                      match mapOpt net.fc2.apply (a10.map reluV) with
                      | none => none
                      | some a12 =>
                          match mapOpt net.fc3.apply (a12.map reluV) with
                          | none => none
                          | some a14 => some (a14.map (dropout mode mask))

/-- `SimpleConvNet.forward` on a batch: run the layer stack, then
return raw output in training mode or row-wise softmax in inference
mode. -/
def convNetForward (mode : Mode) (ex rsqrt : ℚ → ℚ) (mask : ℕ → Bool)
    (net : ConvNet) (xs : List FMap) : Option (List (List ℚ)) :=
  match convNetRaw mode rsqrt mask net xs with
  | none => none
  | some outs =>
      match mode with
      | Mode.train => some outs
      | Mode.infer => some (outs.map (softmax ex))

/-! ### `SimpleConvNet.__init__` and the flattened-size arithmetic -/

/-- `fc_dim` exactly as `SimpleConvNet.__init__` computes it (and then
never uses it): `16 * (input_shape[0] // 4 - 3) * (input_shape[1] // 4 - 3)`
with Python floor division and signed subtraction. -/
def fc_dim (input_shape : ℕ × ℕ) : ℤ :=
  16 * ((input_shape.1 : ℤ) / 4 - 3) * ((input_shape.2 : ℤ) / 4 - 3)

/-- The error the specification prescribes for a flattened-size
mismatch detected at construction. -/
inductive ConfigurationError : Type
  | dimMismatch : ConfigurationError
deriving DecidableEq

/-- The architecture data `SimpleConvNet.__init__` produces: the
`fc_dim` value it computes and leaves unused, and the hard-coded layer
widths. -/
structure ConvNetArch : Type where
  fcDimComputed : ℤ
  dense1InF : ℕ
  dense1OutF : ℕ
  dense2InF : ℕ
  dense2OutF : ℕ
  dense3InF : ℕ
  dense3OutF : ℕ
  dropoutP : ℚ
deriving DecidableEq

def convArch (input_shape : ℕ × ℕ) (num_classes : ℕ) : ConvNetArch :=
  { fcDimComputed := fc_dim input_shape
    dense1InF := 1152, dense1OutF := 256
    dense2InF := 256, dense2OutF := 128
    dense3InF := 128, dense3OutF := num_classes
    dropoutP := 1 / 5 }

/-- `SimpleConvNet.__init__`: computes `fc_dim`, appends the fixed
layer stack, and returns.  It contains no validation of any kind, so
it never raises; the `Except` result type makes the failure path the
specification prescribes (`ConfigurationError`) expressible. -/
def simpleConvNetInit (input_shape : ℕ × ℕ) (num_classes : ℕ) :
    Except ConfigurationError ConvNetArch :=
  Except.ok (convArch input_shape num_classes)

/-- Spatial size out of a `kernel_size=3, stride=1` convolution. -/
def convOutDim (n : ℕ) : ℕ := n - 2

/-- Spatial size out of a `kernel_size=2, stride=2` max-pool. -/
def poolOutDim (n : ℕ) : ℕ := n / 2

/-- Spatial size after conv → pool → conv → pool. -/
def reducedDim (n : ℕ) : ℕ := poolOutDim (convOutDim (poolOutDim (convOutDim n)))

/-- The analytically computed flattened feature size feeding the first
dense layer: 32 output channels times the reduced height and width. -/
def analyticFlattenSize (s : ℕ × ℕ) : ℕ := 32 * reducedDim s.1 * reducedDim s.2

/-! ### Shape lemmas for the convolutional pipeline -/

theorem conv2d_apply_of_dims {inC outC : ℕ} (wf : ℕ → ℕ → ℕ → ℕ → ℚ)
    (b : ℕ → ℚ) {m : FMap} (hc : m.chans = inC) (hh : 3 ≤ m.height)
    (hw : 3 ≤ m.width) :
    ∃ m2, conv2d inC outC wf b m = some m2
      ∧ dims3 outC (m.height - 2) (m.width - 2) m2 := by
  refine ⟨{ chans := outC, height := m.height - 2, width := m.width - 2,
            val := fun o i j => b o +
              ((List.range inC).map (fun c =>
                ((List.range 3).map (fun di =>
                  ((List.range 3).map (fun dj =>
                    wf o c di dj * m.val c (i + di) (j + dj))).sum)).sum)).sum },
    ?_, rfl, rfl, rfl⟩
  simp [conv2d, hc, hh, hw]

theorem maxPool2_apply_of_dims {m : FMap} (hh : 2 ≤ m.height) (hw : 2 ≤ m.width) :
    ∃ m2, maxPool2 m = some m2
      ∧ dims3 m.chans (m.height / 2) (m.width / 2) m2 := by
  refine ⟨{ chans := m.chans, height := m.height / 2, width := m.width / 2,
            val := fun c i j =>
              max (max (m.val c (2 * i) (2 * j)) (m.val c (2 * i) (2 * j + 1)))
                  (max (m.val c (2 * i + 1) (2 * j)) (m.val c (2 * i + 1) (2 * j + 1))) },
    ?_, rfl, rfl, rfl⟩
  simp [maxPool2, hh, hw]

theorem batchNorm_length (mode : Mode) (rsqrt : ℚ → ℚ) (bp : BNParams)
    (ms : List FMap) : (batchNorm mode rsqrt bp ms).length = ms.length := by
  cases mode <;> simp [batchNorm]

theorem dims3_of_mem_batchNorm {c h w : ℕ} {mode : Mode} {rsqrt : ℚ → ℚ}
    {bp : BNParams} {ms : List FMap} (hms : ∀ m ∈ ms, dims3 c h w m) :
    ∀ m2 ∈ batchNorm mode rsqrt bp ms, dims3 c h w m2 := by
  intro m2 hm2
  cases mode <;>
    (simp only [batchNorm, List.mem_map] at hm2
     rcases hm2 with ⟨m, hm, rfl⟩
     exact hms m hm)

theorem dims3_of_mem_map_reluF {c h w : ℕ} {ms : List FMap}
    (hms : ∀ m ∈ ms, dims3 c h w m) :
    ∀ m2 ∈ ms.map reluF, dims3 c h w m2 := by
  intro m2 hm2
  rcases List.mem_map.mp hm2 with ⟨m, hm, rfl⟩
  exact hms m hm

theorem length_flatMap_const {α β : Type} (l : List α) (f : α → List β) (k : ℕ)
    (h : ∀ a ∈ l, (f a).length = k) : (l.flatMap f).length = l.length * k := by
  induction l with
  | nil => simp
  | cons a t ih =>
      have ht := ih (fun x hx => h x (List.mem_cons_of_mem _ hx))
      simp [h a (by simp), ht, Nat.succ_mul, Nat.add_comm]

theorem flattenFMap_length (m : FMap) :
    (flattenFMap m).length = m.chans * m.height * m.width := by
  unfold flattenFMap
  rw [length_flatMap_const _ _ (m.height * m.width), List.length_range, Nat.mul_assoc]
  intro c hc
  rw [length_flatMap_const _ _ m.width, List.length_range]
  intro i hi
  simp

theorem dropout_length (mode : Mode) (mask : ℕ → Bool) (v : List ℚ) :
    (dropout mode mask v).length = v.length := by
  cases mode <;> simp [dropout]

theorem convNet_flatten_stage (mode : Mode) (rsqrt : ℚ → ℚ) (net : ConvNet)
    (xs : List FMap) (h w : ℕ) (hh : 10 ≤ h) (hw : 10 ≤ w)
    (hxs : ∀ m ∈ xs, dims3 3 h w m) :
    ∃ a1 a4 a5 a8,
      mapOpt (conv2d 3 16 net.w1 net.b1) xs = some a1
      ∧ mapOpt maxPool2 ((batchNorm mode rsqrt net.bn1 a1).map reluF) = some a4
      ∧ mapOpt (conv2d 16 32 net.w2 net.b2) a4 = some a5
      ∧ mapOpt maxPool2 ((batchNorm mode rsqrt net.bn2 a5).map reluF) = some a8
      ∧ a8.length = xs.length
      ∧ ∀ m ∈ a8, dims3 32 (reducedDim h) (reducedDim w) m := by
  obtain ⟨a1, ha1, hlen1, hd1⟩ :=
    mapOpt_of_forall (conv2d 3 16 net.w1 net.b1) (dims3 16 (h - 2) (w - 2)) xs (by
      intro m hm
      obtain ⟨hc, hhm, hwm⟩ := hxs m hm
      obtain ⟨m2, hm2, hd⟩ := conv2d_apply_of_dims net.w1 net.b1 hc
        (by rw [hhm]; omega) (by rw [hwm]; omega)
      exact ⟨m2, hm2, by rwa [hhm, hwm] at hd⟩)
  have hd3 : ∀ m ∈ (batchNorm mode rsqrt net.bn1 a1).map reluF, dims3 16 (h - 2) (w - 2) m :=
    dims3_of_mem_map_reluF (dims3_of_mem_batchNorm hd1)
  obtain ⟨a4, ha4, hlen4, hd4⟩ :=
    mapOpt_of_forall maxPool2 (dims3 16 ((h - 2) / 2) ((w - 2) / 2))
      ((batchNorm mode rsqrt net.bn1 a1).map reluF) (by
      intro m hm
      obtain ⟨hc, hhm, hwm⟩ := hd3 m hm
      obtain ⟨m2, hm2, hd⟩ := maxPool2_apply_of_dims
        (m := m) (by rw [hhm]; omega) (by rw [hwm]; omega)
      exact ⟨m2, hm2, by rwa [hc, hhm, hwm] at hd⟩)
  obtain ⟨a5, ha5, hlen5, hd5⟩ :=
    mapOpt_of_forall (conv2d 16 32 net.w2 net.b2)
      (dims3 32 ((h - 2) / 2 - 2) ((w - 2) / 2 - 2)) a4 (by
      intro m hm
      obtain ⟨hc, hhm, hwm⟩ := hd4 m hm
      obtain ⟨m2, hm2, hd⟩ := conv2d_apply_of_dims net.w2 net.b2 hc
        (by rw [hhm]; omega) (by rw [hwm]; omega)
      exact ⟨m2, hm2, by rwa [hhm, hwm] at hd⟩)
  have hd7 : ∀ m ∈ (batchNorm mode rsqrt net.bn2 a5).map reluF,
      dims3 32 ((h - 2) / 2 - 2) ((w - 2) / 2 - 2) m :=
    dims3_of_mem_map_reluF (dims3_of_mem_batchNorm hd5)
  obtain ⟨a8, ha8, hlen8, hd8⟩ :=
    mapOpt_of_forall maxPool2 (dims3 32 (((h - 2) / 2 - 2) / 2) (((w - 2) / 2 - 2) / 2))
      ((batchNorm mode rsqrt net.bn2 a5).map reluF) (by
      intro m hm
      obtain ⟨hc, hhm, hwm⟩ := hd7 m hm
      obtain ⟨m2, hm2, hd⟩ := maxPool2_apply_of_dims
        (m := m) (by rw [hhm]; omega) (by rw [hwm]; omega)
      exact ⟨m2, hm2, by rwa [hc, hhm, hwm] at hd⟩)
  refine ⟨a1, a4, a5, a8, ha1, ha4, ha5, ha8, ?_, hd8⟩
  rw [hlen8, List.length_map, batchNorm_length, hlen5, hlen4,
    List.length_map, batchNorm_length, hlen1]

theorem mapOpt_none_of_exists {α β : Type} (f : α → Option β) (l : List α)
    (h : ∃ a ∈ l, f a = none) : mapOpt f l = none := by
  induction l with
  | nil =>
      rcases h with ⟨a, ha, _⟩
      simp at ha
  | cons a t ih =>
      rcases h with ⟨b, hb, hfb⟩
      rcases List.mem_cons.mp hb with rfl | hbt
      · simp [mapOpt, hfb]
      · cases hfa : f a with
        | none => simp [mapOpt, hfa]
        | some c => simp [mapOpt, hfa, ih ⟨b, hbt, hfb⟩]

theorem convNetRaw_shape (mode : Mode) (rsqrt : ℚ → ℚ) (mask : ℕ → Bool)
    (net : ConvNet) (xs : List FMap) (hxs : ∀ m ∈ xs, dims3 3 32 32 m) :
    ∃ outs, convNetRaw mode rsqrt mask net xs = some outs
      ∧ outs.length = xs.length ∧ ∀ o ∈ outs, o.length = net.numClasses := by
  obtain ⟨a1, a4, a5, a8, ha1, ha4, ha5, ha8, hlen8, hd8⟩ :=
    convNet_flatten_stage mode rsqrt net xs 32 32 (by norm_num) (by norm_num) hxs
  obtain ⟨a10, ha10, hlen10, hd10⟩ :=
    mapOpt_of_forall net.fc1.apply (fun y => y.length = 256) (a8.map flattenFMap) (by
      intro y hy
      rcases List.mem_map.mp hy with ⟨m, hm, rfl⟩
      obtain ⟨hc, hhm, hwm⟩ := hd8 m hm
      have hlen : (flattenFMap m).length = 1152 := by
        rw [flattenFMap_length, hc, hhm, hwm]
        rfl
      exact linear_apply_of_length (L := net.fc1) hlen)
  obtain ⟨a12, ha12, hlen12, hd12⟩ :=
    mapOpt_of_forall net.fc2.apply (fun y => y.length = 128) (a10.map reluV) (by
      intro y hy
      rcases List.mem_map.mp hy with ⟨z, hz, rfl⟩
      have : (reluV z).length = 256 := by rw [reluV_length, hd10 z hz]
      exact linear_apply_of_length (L := net.fc2) this)
  obtain ⟨a14, ha14, hlen14, hd14⟩ :=
    mapOpt_of_forall net.fc3.apply (fun y => y.length = net.numClasses) (a12.map reluV) (by
      intro y hy
      rcases List.mem_map.mp hy with ⟨z, hz, rfl⟩
      have : (reluV z).length = 128 := by rw [reluV_length, hd12 z hz]
      exact linear_apply_of_length (L := net.fc3) this)
  refine ⟨a14.map (dropout mode mask), ?_, ?_, ?_⟩
  · simp only [convNetRaw, ha1, ha4, ha5, ha8, ha10, ha12, ha14]
  · rw [List.length_map, hlen14, List.length_map, hlen12, List.length_map,
      hlen10, List.length_map, hlen8]
  · intro o ho
    rcases List.mem_map.mp ho with ⟨z, hz, rfl⟩
    rw [dropout_length]
    exact hd14 z hz

/-! ### `train_model` and `test_model`

Both loops are generic over the model in the source (`model`,
`optimizer`, `criterion` are call arguments), so they are embedded
generically: `σ` is the mutable training state (parameters, gradients,
optimizer internals), `β` a batch. -/

/-- The per-batch body of `train_model`: `zg` is
`optimizer.zero_grad()`, `lossFn s b` the scalar
`criterion(model(input), target).item()` at state `s`, and `stepFn s b`
the state after `loss.backward(); optimizer.step()`.  The first
component accumulates `train_loss`. -/
def trainLoop {σ β : Type} (zg : σ → σ) (lossFn : σ → β → ℚ)
    (stepFn : σ → β → σ) : σ → List β → ℚ × σ
  | s, [] => (0, s)
  | s, b :: bs =>
      let s0 := zg s
      let l := lossFn s0 b
      let s1 := stepFn s0 b
      let r := trainLoop zg lossFn stepFn s1 bs
      (l + r.1, r.2)

/-- `train_model`: run the loop, then `train_loss /= len(train_loader)`
and return the mean loss (with the final state). -/
def trainModel {σ β : Type} (zg : σ → σ) (lossFn : σ → β → ℚ)
    (stepFn : σ → β → σ) (s : σ) (batches : List β) : ℚ × σ :=
  let r := trainLoop zg lossFn stepFn s batches
  (r.1 / (batches.length : ℚ), r.2)

/-- The list of per-batch scalar loss values the training loop sees,
in order, at the states the optimizer updates produce. -/
def batchLosses {σ β : Type} (zg : σ → σ) (lossFn : σ → β → ℚ)
    (stepFn : σ → β → σ) : σ → List β → List ℚ
  | _, [] => []
  | s, b :: bs =>
      let s0 := zg s
      lossFn s0 b :: batchLosses zg lossFn stepFn (stepFn s0 b) bs

theorem trainLoop_fst {σ β : Type} (zg : σ → σ) (lossFn : σ → β → ℚ)
    (stepFn : σ → β → σ) (s : σ) (bs : List β) :
    (trainLoop zg lossFn stepFn s bs).1 = (batchLosses zg lossFn stepFn s bs).sum := by
  induction bs generalizing s with
  | nil => rfl
  | cons b t ih => simp [trainLoop, batchLosses, ih]

theorem batchLosses_length {σ β : Type} (zg : σ → σ) (lossFn : σ → β → ℚ)
    (stepFn : σ → β → σ) (s : σ) (bs : List β) :
    (batchLosses zg lossFn stepFn s bs).length = bs.length := by
  induction bs generalizing s with
  | nil => rfl
  | cons b t ih => simp [batchLosses, ih]

/-- The inference loop body of `test_model`: `modelOut s x` is the row
of class scores `model(input)` produces for example `x` at parameter
state `s`; a batch contributes `pred.eq(target.view_as(pred)).sum().item()`
— the number of examples whose first-argmax equals the label — and the
state is only read, never written. -/
def testLoop {σ α : Type} (modelOut : σ → α → List ℚ) :
    σ → List (List (α × ℕ)) → ℕ × σ
  | s, [] => (0, s)
  | s, batch :: rest =>
      let c := (batch.map (fun p => if argmaxIdx (modelOut s p.1) = p.2 then 1 else 0)).sum
      let r := testLoop modelOut s rest
      (c + r.1, r.2)

/-- `test_model`: count argmax matches over all batches inside
`torch.no_grad()`, then divide by `len(test_loader.dataset)` and
return the accuracy (with the parameter state it finished with). -/
def testModel {σ α : Type} (modelOut : σ → α → List ℚ) (s : σ)
    (batches : List (List (α × ℕ))) (datasetSize : ℕ) : ℚ × σ :=
  let r := testLoop modelOut s batches
  ((r.1 : ℚ) / (datasetSize : ℚ), r.2)

theorem testLoop_snd {σ α : Type} (modelOut : σ → α → List ℚ) (s : σ)
    (batches : List (List (α × ℕ))) : (testLoop modelOut s batches).2 = s := by
  induction batches with
  | nil => rfl
  | cons b t ih => simp [testLoop, ih]

theorem sum_ite_le_length {α : Type} (l : List α) (P : α → Prop)
    [DecidablePred P] :
    (l.map (fun a => if P a then (1 : ℕ) else 0)).sum ≤ l.length := by
  induction l with
  | nil => simp
  | cons a t ih =>
      by_cases h : P a <;> simp [h] <;> omega

theorem testLoop_fst_le {σ α : Type} (modelOut : σ → α → List ℚ) (s : σ)
    (batches : List (List (α × ℕ))) :
    (testLoop modelOut s batches).1 ≤ (batches.map List.length).sum := by
  induction batches with
  | nil => simp [testLoop]
  | cons b t ih =>
      simp only [testLoop, List.map_cons, List.sum_cons]
      have hb := sum_ite_le_length b (fun p => argmaxIdx (modelOut s p.1) = p.2)
      omega

theorem convNetRaw_none_of_mismatch (mode : Mode) (rsqrt : ℚ → ℚ)
    (mask : ℕ → Bool) (net : ConvNet) (h w : ℕ) (hh : 10 ≤ h) (hw : 10 ≤ w)
    (hne : 32 * reducedDim h * reducedDim w ≠ 1152)
    (m0 : FMap) (rest : List FMap) (hxs : ∀ m ∈ m0 :: rest, dims3 3 h w m) :
    convNetRaw mode rsqrt mask net (m0 :: rest) = none := by
  obtain ⟨a1, a4, a5, a8, ha1, ha4, ha5, ha8, hlen8, hd8⟩ :=
    convNet_flatten_stage mode rsqrt net (m0 :: rest) h w hh hw hxs
  have ha8ne : a8 ≠ [] := by
    intro hnil
    rw [hnil] at hlen8
    simp at hlen8
  obtain ⟨z, hz⟩ := List.exists_mem_of_ne_nil a8 ha8ne
  have hznone : net.fc1.apply (flattenFMap z) = none := by
    obtain ⟨hc, hhz, hwz⟩ := hd8 z hz
    have hlz : (flattenFMap z).length = 32 * reducedDim h * reducedDim w := by
      rw [flattenFMap_length, hc, hhz, hwz]
    simp [LinearLayer.apply, ConvNet.fc1, hlz, hne]
  have hmapnone : mapOpt net.fc1.apply (a8.map flattenFMap) = none :=
    mapOpt_none_of_exists _ _ ⟨flattenFMap z, List.mem_map_of_mem _ hz, hznone⟩
  simp only [convNetRaw, ha1, ha4, ha5, ha8, hmapnone]

theorem convNetForward_none_of_mismatch (mode : Mode) (ex rsqrt : ℚ → ℚ)
    (mask : ℕ → Bool) (net : ConvNet) (h w : ℕ) (hh : 10 ≤ h) (hw : 10 ≤ w)
    (hne : 32 * reducedDim h * reducedDim w ≠ 1152)
    (m0 : FMap) (rest : List FMap) (hxs : ∀ m ∈ m0 :: rest, dims3 3 h w m) :
    convNetForward mode ex rsqrt mask net (m0 :: rest) = none := by
  have hr := convNetRaw_none_of_mismatch mode rsqrt mask net h w hh hw hne m0 rest hxs
  simp only [convNetForward, hr]

/-! ### Concrete sample parameters used by the witnesses -/

/-- A batch-norm parameter set with all entries zero. -/
def zeroBN : BNParams := ⟨fun _ => 0, fun _ => 0, fun _ => 0, fun _ => 0⟩

/-- A `SimpleConvNet` parameter state with every weight, bias and
statistic zero and one output class. -/
def zeroConvNet : ConvNet :=
  { numClasses := 1
    w1 := fun _ _ _ _ => 0, b1 := fun _ => 0, bn1 := zeroBN
    w2 := fun _ _ _ _ => 0, b2 := fun _ => 0, bn2 := zeroBN
    fc1w := fun _ _ => 0, fc1b := fun _ => 0
    fc2w := fun _ _ => 0, fc2b := fun _ => 0
    fc3w := fun _ _ => 0, fc3b := fun _ => 0 }

/-- A 3-channel 28×28 all-zero image. -/
def img28 : FMap := ⟨3, 28, 28, fun _ _ _ => 0⟩

/-- A 3-channel 32×32 all-zero image. -/
def img32 : FMap := ⟨3, 32, 32, fun _ _ _ => 0⟩

/-! ### The claims -/

/-- C1: the specification demands that `SimpleConvNet` construction
fail with a `ConfigurationError` iff the analytically computed
flattened feature size differs from the hard-coded dense width 1152,
never silently succeeding on a mismatch.  The code performs no check at
all: construction succeeds for every input shape and class count — in
particular for input shape `(28, 28)`, whose analytic flattened size is
`800 ≠ 1152` and where the mismatch only surfaces later, as a runtime
shape error (`none`) in the first forward pass. -/
theorem c1_constructor_never_fails (mode : Mode) (ex rsqrt : ℚ → ℚ)
    (mask : ℕ → Bool) (net : ConvNet) (m0 : FMap) (rest : List FMap)
    (hxs : ∀ m ∈ m0 :: rest, dims3 3 28 28 m) :
    (∀ s nc, ∃ a, simpleConvNetInit s nc = Except.ok a)
      ∧ analyticFlattenSize (28, 28) = 800
      ∧ analyticFlattenSize (28, 28) ≠ 1152
      ∧ convNetForward mode ex rsqrt mask net (m0 :: rest) = none := by
  refine ⟨fun s nc => ⟨convArch s nc, rfl⟩, rfl, by decide, ?_⟩
  exact convNetForward_none_of_mismatch mode ex rsqrt mask net 28 28
    (by norm_num) (by norm_num) (by decide) m0 rest hxs

theorem c1_constructor_never_fails_witness :
    (∀ m ∈ [img28], dims3 3 28 28 m)
      ∧ ((∀ s nc, ∃ a, simpleConvNetInit s nc = Except.ok a)
          ∧ analyticFlattenSize (28, 28) = 800
          ∧ analyticFlattenSize (28, 28) ≠ 1152
          ∧ convNetForward Mode.train (fun q => q) (fun q => q) (fun _ => false)
              zeroConvNet [img28] = none) := by
  constructor
  · intro m hm
    rw [List.mem_singleton.mp hm]
    exact ⟨rfl, rfl, rfl⟩
  · exact c1_constructor_never_fails Mode.train (fun q => q) (fun q => q)
      (fun _ => false) zeroConvNet img28 [] (by
        intro m hm
        rw [List.mem_singleton.mp hm]
        exact ⟨rfl, rfl, rfl⟩)

/-- C2: the specification says the flattened feature width feeding the
first dense layer equals `32 × reducedHeight × reducedWidth`, computed
analytically from the configured input shape rather than hard-coded.
In the code that width is the constant 1152 for every input shape: at
`(28, 28)` the analytic value is 800 and the unused `fc_dim` value is
256, yet the layer width stays 1152; the constant agrees with the
analytic size only at the default `(32, 32)`. -/
theorem c2_dense_width_hardcoded :
    (∀ s nc, (convArch s nc).dense1InF = 1152)
      ∧ (convArch (28, 28) 100).dense1InF ≠ analyticFlattenSize (28, 28)
      ∧ fc_dim (28, 28) = 256
      ∧ analyticFlattenSize (28, 28) = 800
      ∧ (convArch (32, 32) 100).dense1InF = analyticFlattenSize (32, 32) := by
  exact ⟨fun s nc => rfl, by decide, by decide, rfl, by decide⟩

/-- C3: one call to `train_model` returns the arithmetic mean of the
per-batch scalar loss values over the number of batches (not the
number of samples): the loss list has exactly one entry per batch and
the returned value is its sum divided by the batch count. -/
theorem c3_train_loss_is_batch_mean {σ β : Type} (zg : σ → σ)
    (lossFn : σ → β → ℚ) (stepFn : σ → β → σ) (s : σ) (batches : List β)
    (hb : 0 < batches.length) :
    (trainModel zg lossFn stepFn s batches).1
      = (batchLosses zg lossFn stepFn s batches).sum
        / ((batchLosses zg lossFn stepFn s batches).length : ℚ)
      ∧ (batchLosses zg lossFn stepFn s batches).length = batches.length := by
  refine ⟨?_, batchLosses_length zg lossFn stepFn s batches⟩
  simp [trainModel, trainLoop_fst, batchLosses_length]

theorem c3_train_loss_is_batch_mean_witness :
    0 < ([(10 : ℚ), 20] : List ℚ).length
      ∧ ((trainModel (fun s => s) (fun s b => s + b) (fun s b => s + 1)
            (0 : ℚ) [10, 20]).1
          = (batchLosses (fun s => s) (fun s b => s + b) (fun s b => s + 1)
              (0 : ℚ) [10, 20]).sum
            / ((batchLosses (fun s => s) (fun s b => s + b) (fun s b => s + 1)
                (0 : ℚ) [10, 20]).length : ℚ)
        ∧ (batchLosses (fun s => s) (fun s b => s + b) (fun s b => s + 1)
            (0 : ℚ) [10, 20]).length = 2) :=
  ⟨by decide,
   c3_train_loss_is_batch_mean (fun s => s) (fun s b => s + b)
     (fun s b => s + 1) (0 : ℚ) [10, 20] (by decide)⟩

/-- C4: `test_model` returns (number of examples whose first-argmax
prediction equals the label, over all batches) divided by the dataset
size; when the loader's batches partition the dataset, that is correct
matches over total samples, and the value lies in `[0, 1]`. -/
theorem c4_accuracy_fraction {σ α : Type} (modelOut : σ → α → List ℚ)
    (s : σ) (batches : List (List (α × ℕ))) (datasetSize : ℕ)
    (hds : datasetSize = (batches.map List.length).sum)
    (hpos : 0 < datasetSize) :
    (testModel modelOut s batches datasetSize).1
      = ((testLoop modelOut s batches).1 : ℚ)
        / (((batches.map List.length).sum : ℕ) : ℚ)
      ∧ 0 ≤ (testModel modelOut s batches datasetSize).1
      ∧ (testModel modelOut s batches datasetSize).1 ≤ 1 := by
  have hc := testLoop_fst_le modelOut s batches
  subst hds
  refine ⟨rfl, ?_, ?_⟩
  · exact div_nonneg (Nat.cast_nonneg _) (Nat.cast_nonneg _)
  · have hpos2 : (0 : ℚ) < (((batches.map List.length).sum : ℕ) : ℚ) := by
      exact_mod_cast hpos
    rw [testModel, div_le_one hpos2]
    exact_mod_cast hc

theorem c4_accuracy_fraction_witness :
    (1 : ℕ) = (([[((0 : ℕ), (0 : ℕ))]].map List.length).sum)
      ∧ 0 < (1 : ℕ)
      ∧ ((testModel (fun (_ : ℕ) (_ : ℕ) => [(1 : ℚ)]) 0 [[(0, 0)]] 1).1
          = ((testLoop (fun (_ : ℕ) (_ : ℕ) => [(1 : ℚ)]) 0 [[(0, 0)]]).1 : ℚ)
            / ((([[((0 : ℕ), (0 : ℕ))]].map List.length).sum : ℕ) : ℚ)
        ∧ 0 ≤ (testModel (fun (_ : ℕ) (_ : ℕ) => [(1 : ℚ)]) 0 [[(0, 0)]] 1).1
        ∧ (testModel (fun (_ : ℕ) (_ : ℕ) => [(1 : ℚ)]) 0 [[(0, 0)]] 1).1 ≤ 1) :=
  ⟨by decide, by decide,
   c4_accuracy_fraction (fun (_ : ℕ) (_ : ℕ) => [(1 : ℚ)]) 0 [[(0, 0)]] 1
     (by decide) (by decide)⟩

/-- C7: `test_model` mutates no classifier parameter: the whole pass
only reads the parameter state, so the state it finishes with is the
state it was given, for every model, data source and epoch. -/
theorem c7_test_preserves_params {σ α : Type} (modelOut : σ → α → List ℚ)
    (s : σ) (batches : List (List (α × ℕ))) (datasetSize : ℕ) :
    (testModel modelOut s batches datasetSize).2 = s
      ∧ (testLoop modelOut s batches).2 = s := by
  exact ⟨testLoop_snd modelOut s batches, testLoop_snd modelOut s batches⟩

/-- C8: with the `SimpleConvNet` in inference mode, the forward pass
does not depend on the dropout mask (dropout is an identity
pass-through at inference), so two calls with identical input and
parameters — but any two random masks — produce identical output. -/
theorem c8_infer_forward_deterministic (ex rsqrt : ℚ → ℚ)
    (mask1 mask2 : ℕ → Bool) (net : ConvNet) (xs : List FMap) :
    convNetForward Mode.infer ex rsqrt mask1 net xs
      = convNetForward Mode.infer ex rsqrt mask2 net xs := rfl

/-! ### Helper lemmas for the forward contracts -/

theorem fcNetForward_shape (mode : Mode) (ex : ℚ → ℚ) (net : FCNet)
    (h12 : net.lin2.inF = net.lin1.outF) (h23 : net.lin3.inF = net.lin2.outF)
    (xs : List (List (List ℚ)))
    (hxs : ∀ g ∈ xs, g.flatten.length = net.lin1.inF) :
    ∃ ys, fcNetForward mode ex net xs = some ys
      ∧ ys.length = xs.length ∧ ∀ y ∈ ys, y.length = net.lin3.outF := by
  obtain ⟨outs, houts, hlen, hall⟩ :=
    mapOpt_of_forall (fcLayers net) (fun y => y.length = net.lin3.outF) xs
      (fun g hg => fcLayers_shape net g (hxs g hg) h12 h23)
  cases mode with
  | train => exact ⟨outs, by simp [fcNetForward, houts], hlen, hall⟩
  | infer =>
      refine ⟨outs.map (softmax ex), by simp [fcNetForward, houts], by simp [hlen], ?_⟩
      intro y hy
      rcases List.mem_map.mp hy with ⟨z, hz, rfl⟩
      rw [softmax_length]
      exact hall z hz

theorem fcNetForward_train_eq_raw (ex : ℚ → ℚ) (net : FCNet)
    (xs : List (List (List ℚ))) :
    fcNetForward Mode.train ex net xs = mapOpt (fcLayers net) xs := by
  cases h : mapOpt (fcLayers net) xs <;> simp [fcNetForward, h]

theorem convNetForward_train_eq_raw (ex rsqrt : ℚ → ℚ) (mask : ℕ → Bool)
    (net : ConvNet) (xs : List FMap) :
    convNetForward Mode.train ex rsqrt mask net xs
      = convNetRaw Mode.train rsqrt mask net xs := by
  cases h : convNetRaw Mode.train rsqrt mask net xs <;> simp [convNetForward, h]

theorem testLoop_congr {σ α : Type} (f g : σ → α → List ℚ) (s : σ)
    (batches : List (List (α × ℕ)))
    (h : ∀ batch ∈ batches, ∀ p ∈ batch, argmaxIdx (f s p.1) = argmaxIdx (g s p.1)) :
    testLoop f s batches = testLoop g s batches := by
  induction batches with
  | nil => rfl
  | cons b t ih =>
      simp only [testLoop]
      rw [ih (fun batch hb p hp => h batch (List.mem_cons_of_mem _ hb) p hp)]
      have hmap : b.map (fun p => if argmaxIdx (f s p.1) = p.2 then (1 : ℕ) else 0)
          = b.map (fun p => if argmaxIdx (g s p.1) = p.2 then (1 : ℕ) else 0) := by
        apply List.map_congr_left
        intro p hp
        rw [h b (by simp) p hp]
      rw [hmap]

/-- C5 counterexample: with declared input shape `(1, 1)` and a batch
holding one 1×1 example of that declared shape, the forward pass is a
runtime shape error (`none`) rather than an output of shape `[1, 10]`:
`SimpleFCNet` hard-codes `Linear(784, 128)` and ignores the declared
input shape. -/
theorem c5_counterexample :
    fcNetForward Mode.train (fun q => q)
      (simpleFCNetInit (1, 1) 10 (fun _ _ _ _ => 0) (fun _ _ _ => 0)
        (fun _ _ _ _ => 0))
      [[[(5 : ℚ)]]] = none := rfl

/-- C5 (amended): for constructor arguments whose height × width equals
the hard-coded flattened width 784 (such as the default `(28, 28)`),
and every batch of `height × width` examples, the forward pass first
flattens each example to a vector of length height × width and returns
an output of shape `[batch_size, num_classes]`, in both modes. -/
theorem c5_forward_shape (h w nc : ℕ) (hhw : h * w = 784)
    (dW : ℕ → ℕ → ℕ → ℕ → ℚ) (dB : ℕ → ℕ → ℕ → ℚ)
    (xavier : ℕ → ℕ → ℕ → ℕ → ℚ) (mode : Mode) (ex : ℚ → ℚ)
    (xs : List (List (List ℚ)))
    (hxs : ∀ g ∈ xs, g.length = h ∧ ∀ r ∈ g, r.length = w) :
    (∀ g ∈ xs, g.flatten.length = h * w)
      ∧ ∃ ys, fcNetForward mode ex (simpleFCNetInit (h, w) nc dW dB xavier) xs
            = some ys
          ∧ ys.length = xs.length ∧ ∀ y ∈ ys, y.length = nc := by
  have hflat : ∀ g ∈ xs, g.flatten.length = h * w := by
    intro g hg
    obtain ⟨hgl, hgr⟩ := hxs g hg
    rw [join_length_of_grid g w hgr, hgl]
  refine ⟨hflat, ?_⟩
  exact fcNetForward_shape mode ex (simpleFCNetInit (h, w) nc dW dB xavier)
    rfl rfl xs (by
      intro g hg
      rw [hflat g hg, hhw]
      rfl)

theorem c5_forward_shape_witness :
    (28 : ℕ) * 28 = 784
      ∧ (∀ g ∈ [List.replicate 28 (List.replicate 28 (0 : ℚ))],
          g.length = 28 ∧ ∀ r ∈ g, r.length = 28)
      ∧ ((∀ g ∈ [List.replicate 28 (List.replicate 28 (0 : ℚ))],
            g.flatten.length = 28 * 28)
        ∧ ∃ ys, fcNetForward Mode.train (fun q => q)
              (simpleFCNetInit (28, 28) 10 (fun _ _ _ _ => 0) (fun _ _ _ => 0)
                (fun _ _ _ _ => 0))
              [List.replicate 28 (List.replicate 28 (0 : ℚ))] = some ys
            ∧ ys.length = [List.replicate 28 (List.replicate 28 (0 : ℚ))].length
            ∧ ∀ y ∈ ys, y.length = 10) := by
  have hgrid : ∀ g ∈ [List.replicate 28 (List.replicate 28 (0 : ℚ))],
      g.length = 28 ∧ ∀ r ∈ g, r.length = 28 := by
    intro g hg
    rw [List.mem_singleton.mp hg]
    refine ⟨List.length_replicate _ _, ?_⟩
    intro r hr
    rw [List.eq_of_mem_replicate hr]
    exact List.length_replicate _ _
  exact ⟨by norm_num, hgrid,
    c5_forward_shape 28 28 10 (by norm_num) (fun _ _ _ _ => 0) (fun _ _ _ => 0)
      (fun _ _ _ _ => 0) Mode.train (fun q => q)
      [List.replicate 28 (List.replicate 28 (0 : ℚ))] hgrid⟩

/-- C6: mode-dependent output contract of both classifiers.  In
training mode each `forward` returns the raw layer-stack output with no
softmax applied; in inference mode it applies softmax over the class
dimension, so (for a positive exponential and at least one class) every
example's output row sums to exactly 1. -/
theorem c6_mode_output_contract (ex rsqrt : ℚ → ℚ) (hex : ∀ q, 0 < ex q)
    (s : ℕ × ℕ) (nc : ℕ) (hnc : 0 < nc)
    (dW : ℕ → ℕ → ℕ → ℕ → ℚ) (dB : ℕ → ℕ → ℕ → ℚ)
    (xavier : ℕ → ℕ → ℕ → ℕ → ℚ)
    (xsF : List (List (List ℚ))) (hxsF : ∀ g ∈ xsF, g.flatten.length = 784)
    (mask : ℕ → Bool) (cnet : ConvNet) (hcnc : 0 < cnet.numClasses)
    (xsC : List FMap) (hxsC : ∀ m ∈ xsC, dims3 3 32 32 m) :
    (fcNetForward Mode.train ex (simpleFCNetInit s nc dW dB xavier) xsF
        = mapOpt (fcLayers (simpleFCNetInit s nc dW dB xavier)) xsF)
      ∧ (∃ ys, fcNetForward Mode.infer ex (simpleFCNetInit s nc dW dB xavier) xsF
            = some ys ∧ ys.length = xsF.length ∧ ∀ y ∈ ys, y.sum = 1)
      ∧ (convNetForward Mode.train ex rsqrt mask cnet xsC
          = convNetRaw Mode.train rsqrt mask cnet xsC)
      ∧ (∃ zs, convNetForward Mode.infer ex rsqrt mask cnet xsC
            = some zs ∧ zs.length = xsC.length ∧ ∀ z ∈ zs, z.sum = 1) := by
  refine ⟨fcNetForward_train_eq_raw ex _ xsF, ?_,
    convNetForward_train_eq_raw ex rsqrt mask cnet xsC, ?_⟩
  · obtain ⟨outs, houts, hlen, hall⟩ :=
      mapOpt_of_forall (fcLayers (simpleFCNetInit s nc dW dB xavier))
        (fun y => y.length = nc) xsF
        (fun g hg => fcLayers_shape (simpleFCNetInit s nc dW dB xavier) g
          (by rw [hxsF g hg]; rfl) rfl rfl)
    refine ⟨outs.map (softmax ex), by simp [fcNetForward, houts], by simp [hlen], ?_⟩
    intro y hy
    rcases List.mem_map.mp hy with ⟨z, hz, rfl⟩
    apply softmax_sum_eq_one
    · apply List.ne_nil_of_length_pos
      rw [hall z hz]
      exact hnc
    · exact fun x _ => hex x
  · obtain ⟨outs, houts, hlen, hall⟩ :=
      convNetRaw_shape Mode.infer rsqrt mask cnet xsC hxsC
    refine ⟨outs.map (softmax ex), by simp [convNetForward, houts], by simp [hlen], ?_⟩
    intro z hz
    rcases List.mem_map.mp hz with ⟨o, ho, rfl⟩
    apply softmax_sum_eq_one
    · apply List.ne_nil_of_length_pos
      rw [hall o ho]
      exact hcnc
    · exact fun x _ => hex x

theorem c6_mode_output_contract_witness :
    (∀ q : ℚ, 0 < (fun _ : ℚ => (1 : ℚ)) q)
      ∧ 0 < (1 : ℕ)
      ∧ (∀ g ∈ ([] : List (List (List ℚ))), g.flatten.length = 784)
      ∧ 0 < zeroConvNet.numClasses
      ∧ (∀ m ∈ [img32], dims3 3 32 32 m)
      ∧ ((fcNetForward Mode.train (fun _ => 1)
            (simpleFCNetInit (28, 28) 1 (fun _ _ _ _ => 0) (fun _ _ _ => 0)
              (fun _ _ _ _ => 0)) []
          = mapOpt (fcLayers (simpleFCNetInit (28, 28) 1 (fun _ _ _ _ => 0)
              (fun _ _ _ => 0) (fun _ _ _ _ => 0))) [])
        ∧ (∃ ys, fcNetForward Mode.infer (fun _ => 1)
              (simpleFCNetInit (28, 28) 1 (fun _ _ _ _ => 0) (fun _ _ _ => 0)
                (fun _ _ _ _ => 0)) []
              = some ys ∧ ys.length = ([] : List (List (List ℚ))).length
            ∧ ∀ y ∈ ys, y.sum = 1)
        ∧ (convNetForward Mode.train (fun _ => 1) (fun q => q) (fun _ => false)
            zeroConvNet [img32]
          = convNetRaw Mode.train (fun q => q) (fun _ => false) zeroConvNet [img32])
        ∧ (∃ zs, convNetForward Mode.infer (fun _ => 1) (fun q => q)
              (fun _ => false) zeroConvNet [img32]
              = some zs ∧ zs.length = [img32].length ∧ ∀ z ∈ zs, z.sum = 1)) := by
  have himg : ∀ m ∈ [img32], dims3 3 32 32 m := by
    intro m hm
    rw [List.mem_singleton.mp hm]
    exact ⟨rfl, rfl, rfl⟩
  exact ⟨fun q => by norm_num, by norm_num, fun g hg => absurd hg (List.not_mem_nil g),
    by norm_num [zeroConvNet], himg,
    c6_mode_output_contract (fun _ => 1) (fun q => q) (fun q => by norm_num)
      (28, 28) 1 (by norm_num) (fun _ _ _ _ => 0) (fun _ _ _ => 0)
      (fun _ _ _ _ => 0) [] (fun g hg => absurd hg (List.not_mem_nil g))
      (fun _ => false) zeroConvNet (by norm_num [zeroConvNet]) [img32] himg⟩

/-- C9: `SimpleFCNet.__init__` builds the layer stack and then runs the
initialization policy exactly once: the constructed parameters equal
one application of `reset_params` to the freshly built stack, under
which every linear layer's weight matrix is the Xavier-uniform draw for
its fan-in/fan-out (hence each entry obeys the Xavier range bound
`w² · (fanIn + fanOut) ≤ 6`, squared to avoid the square root) and
every bias vector is exactly zero. -/
theorem c9_init_policy (s : ℕ × ℕ) (nc : ℕ)
    (dW : ℕ → ℕ → ℕ → ℕ → ℚ) (dB : ℕ → ℕ → ℕ → ℚ)
    (xavier : ℕ → ℕ → ℕ → ℕ → ℚ)
    (hx : ∀ fi fo j i, (xavier fi fo j i) ^ 2 * ((fi + fo : ℕ) : ℚ) ≤ 6) :
    (simpleFCNetInit s nc dW dB xavier
        = resetParams xavier
            { lin1 := ⟨784, 128, dW 784 128, dB 784 128⟩
              lin2 := ⟨128, 64, dW 128 64, dB 128 64⟩
              lin3 := ⟨64, nc, dW 64 nc, dB 64 nc⟩ })
      ∧ (∀ j, (simpleFCNetInit s nc dW dB xavier).lin1.bias j = 0)
      ∧ (∀ j, (simpleFCNetInit s nc dW dB xavier).lin2.bias j = 0)
      ∧ (∀ j, (simpleFCNetInit s nc dW dB xavier).lin3.bias j = 0)
      ∧ (simpleFCNetInit s nc dW dB xavier).lin1.weight = xavier 784 128
      ∧ (simpleFCNetInit s nc dW dB xavier).lin2.weight = xavier 128 64
      ∧ (simpleFCNetInit s nc dW dB xavier).lin3.weight = xavier 64 nc
      ∧ (∀ j i, ((simpleFCNetInit s nc dW dB xavier).lin1.weight j i) ^ 2
          * ((784 + 128 : ℕ) : ℚ) ≤ 6)
      ∧ (∀ j i, ((simpleFCNetInit s nc dW dB xavier).lin2.weight j i) ^ 2
          * ((128 + 64 : ℕ) : ℚ) ≤ 6)
      ∧ (∀ j i, ((simpleFCNetInit s nc dW dB xavier).lin3.weight j i) ^ 2
          * ((64 + nc : ℕ) : ℚ) ≤ 6) :=
  ⟨rfl, fun j => rfl, fun j => rfl, fun j => rfl, rfl, rfl, rfl,
   fun j i => hx 784 128 j i, fun j i => hx 128 64 j i, fun j i => hx 64 nc j i⟩

theorem c9_init_policy_witness :
    (∀ (fi fo j i : ℕ),
        ((fun (_ _ _ _ : ℕ) => (0 : ℚ)) fi fo j i) ^ 2 * ((fi + fo : ℕ) : ℚ) ≤ 6)
      ∧ ((∀ j, (simpleFCNetInit (28, 28) 10 (fun _ _ _ _ => 0) (fun _ _ _ => 0)
            (fun _ _ _ _ => 0)).lin1.bias j = 0)
        ∧ (∀ j, (simpleFCNetInit (28, 28) 10 (fun _ _ _ _ => 0) (fun _ _ _ => 0)
            (fun _ _ _ _ => 0)).lin2.bias j = 0)
        ∧ (∀ j, (simpleFCNetInit (28, 28) 10 (fun _ _ _ _ => 0) (fun _ _ _ => 0)
            (fun _ _ _ _ => 0)).lin3.bias j = 0)
        ∧ (∀ j i, ((simpleFCNetInit (28, 28) 10 (fun _ _ _ _ => 0) (fun _ _ _ => 0)
            (fun _ _ _ _ => 0)).lin1.weight j i) ^ 2 * ((784 + 128 : ℕ) : ℚ) ≤ 6)) := by
  have hx : ∀ (fi fo j i : ℕ),
      ((fun _ _ _ _ => (0 : ℚ)) fi fo j i) ^ 2 * ((fi + fo : ℕ) : ℚ) ≤ 6 := by
    intro fi fo j i
    norm_num
  obtain ⟨heq, hb1, hb2, hb3, hw1, hw2, hw3, hbd1, hbd2, hbd3⟩ :=
    c9_init_policy (28, 28) 10 (fun _ _ _ _ => 0) (fun _ _ _ => 0)
      (fun _ _ _ _ => 0) hx
  exact ⟨hx, hb1, hb2, hb3, hbd1⟩

/-- C10: applying softmax over the class dimension (with a positive,
strictly order-preserving exponential) never changes the index of the
maximal score, so `test_model` computes the identical accuracy whether
the model returns raw logits or softmax probabilities. -/
theorem c10_softmax_preserves_argmax {σ α : Type} (ex : ℚ → ℚ)
    (v : List ℚ) (hv : v ≠ [])
    (hpos : ∀ x ∈ v, 0 < ex x)
    (hiso : ∀ a ∈ v, ∀ b ∈ v, (a < b ↔ ex a < ex b))
    (modelOut : σ → α → List ℚ) (s : σ) (batches : List (List (α × ℕ)))
    (datasetSize : ℕ)
    (hm : ∀ batch ∈ batches, ∀ p ∈ batch,
      modelOut s p.1 ≠ []
        ∧ (∀ x ∈ modelOut s p.1, 0 < ex x)
        ∧ (∀ a ∈ modelOut s p.1, ∀ b ∈ modelOut s p.1, (a < b ↔ ex a < ex b))) :
    argmaxIdx (softmax ex v) = argmaxIdx v
      ∧ testModel (fun st x => softmax ex (modelOut st x)) s batches datasetSize
          = testModel modelOut s batches datasetSize := by
  refine ⟨argmaxIdx_softmax ex v hv hpos hiso, ?_⟩
  have hcong := testLoop_congr (fun st x => softmax ex (modelOut st x))
    modelOut s batches (by
      intro batch hb p hp
      obtain ⟨h1, h2, h3⟩ := hm batch hb p hp
      exact argmaxIdx_softmax ex _ h1 h2 h3)
  simp [testModel, hcong]

theorem c10_softmax_preserves_argmax_witness :
    ([(1 : ℚ), 3, 2] ≠ [])
      ∧ (∀ x ∈ [(1 : ℚ), 3, 2], 0 < (fun q : ℚ => q) x)
      ∧ (∀ a ∈ [(1 : ℚ), 3, 2], ∀ b ∈ [(1 : ℚ), 3, 2],
          (a < b ↔ (fun q : ℚ => q) a < (fun q : ℚ => q) b))
      ∧ (argmaxIdx (softmax (fun q : ℚ => q) [(1 : ℚ), 3, 2])
            = argmaxIdx [(1 : ℚ), 3, 2]
        ∧ testModel (fun (st : ℕ) (x : ℕ) =>
              softmax (fun q : ℚ => q) ((fun _ _ => [(1 : ℚ)]) st x)) 0 [] 1
            = testModel (fun (_ : ℕ) (_ : ℕ) => [(1 : ℚ)]) 0 [] 1) := by
  refine ⟨by decide, by decide, by decide, ?_⟩
  exact c10_softmax_preserves_argmax (fun q : ℚ => q) [(1 : ℚ), 3, 2]
    (by decide) (by decide) (by decide)
    (fun (_ : ℕ) (_ : ℕ) => [(1 : ℚ)]) 0 [] 1
    (fun batch hb p hp => absurd hb (List.not_mem_nil batch))

end SceneRec
